import Mathlib

/-!
Shallow embedding of the pass-inator password generator (src/main.go).

Strings are `List Char` (the program only ever handles ASCII, so Go's
bytes, runes and string characters coincide).  Go's `int` is `Int`.
The cryptographically secure random source (`crypto/rand` behind
`secureRandomInt`) is modelled as an oracle `src : Nat → Option Nat`
giving the outcome of each successive call (`none` = the entropy source
failed), together with a `trace` recording the bound of every call made
so far; `src` is consulted at position `trace.length`, so the trace also
serves as the call counter.  A successful draw with bound `m > 0`
returns `v % m`, an arbitrary value in `[0, m)` as `crypto/rand.Int`
guarantees.
-/

namespace PassInator

/-- Constants from src/main.go lines 13-19. -/
def minPasswordLength : Int := 6

def lowercaseChars : List Char := "abcdefghijklmnopqrstuvwxyz".toList

def uppercaseChars : List Char := "ABCDEFGHIJKLMNOPQRSTUVWXYZ".toList

def numberChars : List Char := "0123456789".toList

def specialChars : List Char := "!@#$%^&*()_+-=[]\x7b\x7d|;:,.<>?".toList

/-- PasswordConfig (src/main.go lines 22-28). -/
structure PasswordConfig where
  Length : Int
  UseLowercase : Bool
  UseUppercase : Bool
  UseNumbers : Bool
  UseSpecialChars : Bool

/-- The error outcomes of generation: the two validation errors and the
class of RNG failures (wrapped `fmt.Errorf` values in Go). -/
inductive GenError where
  | invalidLength
  | noCharacterClassSelected
  | rngError
deriving DecidableEq, Repr

/-- State of the modelled secure random source: the oracle and the trace
of bounds of the calls made so far. -/
structure RngSt where
  src : Nat → Option Nat
  trace : List Nat

/-- secureRandomInt (src/main.go lines 31-40): checks the bound before
touching the random source, then performs one draw. -/
def secureRandomInt (max : Nat) (s : RngSt) : Except GenError Nat × RngSt :=
  if max = 0 then (Except.error GenError.rngError, s)
  else
    match s.src s.trace.length with
    | none => (Except.error GenError.rngError, ⟨s.src, s.trace ++ [max]⟩)
    | some v => (Except.ok (v % max), ⟨s.src, s.trace ++ [max]⟩)

/-- validateConfig (src/main.go lines 50-58): length is checked first,
then the character-class booleans. -/
def validateConfig (config : PasswordConfig) : Option GenError :=
  if config.Length < minPasswordLength then some GenError.invalidLength
  else if !config.UseLowercase && !config.UseUppercase && !config.UseNumbers
      && !config.UseSpecialChars then
    some GenError.noCharacterClassSelected
  else none

/-- Alphabet composition (src/main.go lines 66-79): concatenate the
enabled tables in the fixed order lowercase, uppercase, numbers, special. -/
def charSetOf (config : PasswordConfig) : List Char :=
  (if config.UseLowercase then lowercaseChars else []) ++
  (if config.UseUppercase then uppercaseChars else []) ++
  (if config.UseNumbers then numberChars else []) ++
  (if config.UseSpecialChars then specialChars else [])

/-- One guaranteed-inclusion block (each `if config.UseX` block of
src/main.go lines 82-110): when enabled, draw an index into the class's
own table and append that character. -/
def drawIncl (enabled : Bool) (table : List Char) (acc : List Char) (s : RngSt) :
    Except GenError (List Char) × RngSt :=
  if enabled then
    match secureRandomInt table.length s with
    | (Except.error e, t) => (Except.error e, t)
    | (Except.ok idx, t) => (Except.ok (acc ++ [table.getD idx ' ']), t)
  else (Except.ok acc, s)

/-- The guaranteed-inclusion step (src/main.go lines 82-110): the four
blocks in canonical order. -/
def inclusionStep (config : PasswordConfig) (s : RngSt) :
    Except GenError (List Char) × RngSt :=
  match drawIncl config.UseLowercase lowercaseChars [] s with
  | (Except.error e, t) => (Except.error e, t)
  | (Except.ok p1, s1) =>
    match drawIncl config.UseUppercase uppercaseChars p1 s1 with
    | (Except.error e, t) => (Except.error e, t)
    | (Except.ok p2, s2) =>
      match drawIncl config.UseNumbers numberChars p2 s2 with
      | (Except.error e, t) => (Except.error e, t)
      | (Except.ok p3, s3) => drawIncl config.UseSpecialChars specialChars p3 s3

/-- The fill loop (src/main.go lines 112-120): `n` iterations, each
drawing an index into the composed alphabet and appending the character. -/
def fillLoop (cs : List Char) : Nat → List Char → RngSt →
    Except GenError (List Char) × RngSt
  | 0, acc, s => (Except.ok acc, s)
  | Nat.succ n, acc, s =>
    match secureRandomInt cs.length s with
    | (Except.error e, t) => (Except.error e, t)
    | (Except.ok idx, t) => fillLoop cs n (acc ++ [cs.getD idx ' ']) t

/-- Validation-passed part of generatePassword before the shuffle:
guaranteed inclusion then fill.  `remainingLength` is the Go `int`
`config.Length - password.Len()`; a `for` loop with a non-positive bound
runs zero times, which `Int.toNat` captures. -/
def buildPhase (config : PasswordConfig) (s : RngSt) :
    Except GenError (List Char) × RngSt :=
  match inclusionStep config s with
  | (Except.error e, t) => (Except.error e, t)
  | (Except.ok p4, s4) =>
    fillLoop (charSetOf config) (config.Length - (p4.length : Int)).toNat p4 s4

/-- The simultaneous swap `runes[i], runes[j] = runes[j], runes[i]`
(src/main.go line 130). -/
def swapList (l : List Char) (i j : Nat) : List Char :=
  (l.set i (l.getD j ' ')).set j (l.getD i ' ')

/-- The Fisher-Yates loop (src/main.go lines 125-131): the argument is
the current index `i`; at index `i ≥ 1` draw `j` with bound `i + 1` and
swap positions `i` and `j`, then continue at `i - 1`. -/
def shuffleLoop : Nat → List Char → RngSt → Except GenError (List Char) × RngSt
  | 0, l, s => (Except.ok l, s)
  | Nat.succ i, l, s =>
    match secureRandomInt (i + 2) s with
    | (Except.error e, t) => (Except.error e, t)
    | (Except.ok j, t) => shuffleLoop i (swapList l (i + 1) j) t

/-- generatePassword (src/main.go lines 61-134): validate, build the
accumulator (inclusion then fill), then Fisher-Yates shuffle starting at
index `length - 1`. -/
def generatePassword (config : PasswordConfig) (s : RngSt) :
    Except GenError (List Char) × RngSt :=
  match validateConfig config with
  | some e => (Except.error e, s)
  | none =>
    match buildPhase config s with
    | (Except.error e, t) => (Except.error e, t)
    | (Except.ok p5, s5) => shuffleLoop (p5.length - 1) p5 s5

/-- Number of enabled character classes. -/
def numEnabled (config : PasswordConfig) : Nat :=
  (if config.UseLowercase then 1 else 0) + (if config.UseUppercase then 1 else 0) +
  (if config.UseNumbers then 1 else 0) + (if config.UseSpecialChars then 1 else 0)

/-- Bounds passed to the random source by the guaranteed-inclusion step. -/
def inclBounds (config : PasswordConfig) : List Nat :=
  (if config.UseLowercase then [lowercaseChars.length] else []) ++
  (if config.UseUppercase then [uppercaseChars.length] else []) ++
  (if config.UseNumbers then [numberChars.length] else []) ++
  (if config.UseSpecialChars then [specialChars.length] else [])

/-- Bounds passed to the random source by the shuffle loop started at
index `i`: `i + 1, i, ..., 2`. -/
def shuffleBounds : Nat → List Nat
  | 0 => []
  | Nat.succ i => (i + 2) :: shuffleBounds i

/-- A character is in some enabled class's table. -/
def allowedChar (config : PasswordConfig) (c : Char) : Prop :=
  c ∈ charSetOf config

/-- A random source that never fails. -/
def srcTotal (f : Nat → Option Nat) : Prop :=
  ∀ n, f n ≠ none

/- ## Specification lemmas for the random source -/

theorem secureRandomInt_ok {m v : Nat} {s t : RngSt}
    (h : secureRandomInt m s = (Except.ok v, t)) :
    v < m ∧ t.src = s.src ∧ t.trace = s.trace ++ [m] := by
  unfold secureRandomInt at h
  by_cases hm : m = 0
  · simp [hm] at h
  · simp only [hm, if_false] at h
    cases hsrc : s.src s.trace.length with
    | none => rw [hsrc] at h; simp at h
    | some w =>
      rw [hsrc] at h
      simp only [Prod.mk.injEq, Except.ok.injEq] at h
      obtain ⟨hv, ht⟩ := h
      subst ht
      exact ⟨hv ▸ Nat.mod_lt _ (Nat.pos_of_ne_zero hm), rfl, rfl⟩

theorem secureRandomInt_error {m : Nat} {s t : RngSt} {e : GenError}
    (h : secureRandomInt m s = (Except.error e, t)) : e = GenError.rngError := by
  unfold secureRandomInt at h
  by_cases hm : m = 0
  · simp only [hm, if_true] at h
    simp only [Prod.mk.injEq, Except.error.injEq] at h
    exact h.1.symm
  · simp only [hm, if_false] at h
    cases hsrc : s.src s.trace.length with
    | none =>
      rw [hsrc] at h
      simp only [Prod.mk.injEq, Except.error.injEq] at h
      exact h.1.symm
    | some w => rw [hsrc] at h; simp at h

theorem secureRandomInt_total {m : Nat} {s : RngSt} (hm : m ≠ 0)
    (hs : srcTotal s.src) :
    ∃ v t, secureRandomInt m s = (Except.ok v, t) ∧ t.src = s.src := by
  unfold secureRandomInt
  cases hsrc : s.src s.trace.length with
  | none => exact absurd hsrc (hs s.trace.length)
  | some w =>
    refine ⟨w % m, ⟨s.src, s.trace ++ [m]⟩, ?_, rfl⟩
    simp [hm, hsrc]

/- ## Specification lemmas for the guaranteed-inclusion step -/

theorem drawIncl_ok {b : Bool} {table acc acc' : List Char} {s t : RngSt}
    (h : drawIncl b table acc s = (Except.ok acc', t)) :
    ∃ ext, acc' = acc ++ ext ∧ (∀ c ∈ ext, c ∈ table) ∧
      ext.length = (if b = true then 1 else 0) ∧
      t.src = s.src ∧
      t.trace = s.trace ++ (if b = true then [table.length] else []) := by
  cases b with
  | false =>
    unfold drawIncl at h
    simp only [Bool.false_eq_true, if_false] at h
    simp only [Prod.mk.injEq, Except.ok.injEq] at h
    obtain ⟨ha, ht⟩ := h
    subst ht
    exact ⟨[], by simp [ha.symm]⟩
  | true =>
    unfold drawIncl at h
    simp only [if_true] at h
    cases hsr : secureRandomInt table.length s with
    | mk r t' =>
      rw [hsr] at h
      cases r with
      | error e => simp at h
      | ok idx =>
        simp only [Prod.mk.injEq, Except.ok.injEq] at h
        obtain ⟨ha, ht⟩ := h
        subst ht
        obtain ⟨hlt, hsrc, htr⟩ := secureRandomInt_ok hsr
        refine ⟨[table.getD idx ' '], ha.symm, ?_, by simp, hsrc, by simp [htr]⟩
        intro c hc
        simp only [List.mem_singleton] at hc
        subst hc
        rw [List.getD_eq_getElem table ' ' hlt]
        exact List.getElem_mem hlt

theorem drawIncl_error {b : Bool} {table acc : List Char} {s t : RngSt} {e : GenError}
    (h : drawIncl b table acc s = (Except.error e, t)) : e = GenError.rngError := by
  cases b with
  | false =>
    unfold drawIncl at h
    simp at h
  | true =>
    unfold drawIncl at h
    simp only [if_true] at h
    cases hsr : secureRandomInt table.length s with
    | mk r t' =>
      rw [hsr] at h
      cases r with
      | error e' =>
        simp only [Prod.mk.injEq, Except.error.injEq] at h
        exact h.1 ▸ secureRandomInt_error hsr
      | ok idx => simp at h

theorem drawIncl_total {b : Bool} {table acc : List Char} {s : RngSt}
    (htab : table.length ≠ 0) (hs : srcTotal s.src) :
    ∃ acc' t, drawIncl b table acc s = (Except.ok acc', t) ∧ t.src = s.src := by
  cases b with
  | false => exact ⟨acc, s, rfl, rfl⟩
  | true =>
    obtain ⟨v, t, hsr, hsrc⟩ := secureRandomInt_total htab hs
    refine ⟨acc ++ [table.getD v ' '], t, ?_, hsrc⟩
    unfold drawIncl
    simp only [if_true]
    rw [hsr]

/- ## Specification lemmas for the fill loop -/

theorem fillLoop_ok {cs : List Char} : ∀ {n : Nat} {acc acc' : List Char} {s t : RngSt},
    fillLoop cs n acc s = (Except.ok acc', t) →
    ∃ ext, acc' = acc ++ ext ∧ ext.length = n ∧ (∀ c ∈ ext, c ∈ cs) ∧
      t.src = s.src ∧ t.trace = s.trace ++ List.replicate n cs.length := by
  intro n
  induction n with
  | zero =>
    intro acc acc' s t h
    unfold fillLoop at h
    simp only [Prod.mk.injEq, Except.ok.injEq] at h
    obtain ⟨ha, ht⟩ := h
    subst ht
    exact ⟨[], by simp [ha.symm]⟩
  | succ n ih =>
    intro acc acc' s t h
    unfold fillLoop at h
    cases hsr : secureRandomInt cs.length s with
    | mk r t' =>
      rw [hsr] at h
      cases r with
      | error e => simp at h
      | ok idx =>
        obtain ⟨hlt, hsrc, htr⟩ := secureRandomInt_ok hsr
        obtain ⟨ext, hacc, hlen, hmem, hsrc2, htr2⟩ := ih h
        refine ⟨cs.getD idx ' ' :: ext, ?_, by simp [hlen], ?_, ?_, ?_⟩
        · rw [hacc]; simp
        · intro c hc
          rcases List.mem_cons.mp hc with hc | hc
          · subst hc
            rw [List.getD_eq_getElem cs ' ' hlt]
            exact List.getElem_mem hlt
          · exact hmem c hc
        · rw [hsrc2, hsrc]
        · rw [htr2, htr]
          simp [List.replicate_succ]

theorem fillLoop_error {cs : List Char} : ∀ {n : Nat} {acc : List Char} {s t : RngSt}
    {e : GenError}, fillLoop cs n acc s = (Except.error e, t) → e = GenError.rngError := by
  intro n
  induction n with
  | zero =>
    intro acc s t e h
    unfold fillLoop at h
    simp at h
  | succ n ih =>
    intro acc s t e h
    unfold fillLoop at h
    cases hsr : secureRandomInt cs.length s with
    | mk r t' =>
      rw [hsr] at h
      cases r with
      | error e' =>
        simp only [Prod.mk.injEq, Except.error.injEq] at h
        exact h.1 ▸ secureRandomInt_error hsr
      | ok idx => exact ih h

theorem fillLoop_total {cs : List Char} (hcs : cs.length ≠ 0) :
    ∀ (n : Nat) (acc : List Char) (s : RngSt), srcTotal s.src →
    ∃ acc' t, fillLoop cs n acc s = (Except.ok acc', t) ∧ t.src = s.src := by
  intro n
  induction n with
  | zero => intro acc s _; exact ⟨acc, s, rfl, rfl⟩
  | succ n ih =>
    intro acc s hs
    obtain ⟨v, t, hsr, hsrc⟩ := secureRandomInt_total hcs hs
    obtain ⟨acc', t', hfl, hsrc2⟩ := ih (acc ++ [cs.getD v ' ']) t (by rw [hsrc]; exact hs)
    refine ⟨acc', t', ?_, by rw [hsrc2, hsrc]⟩
    unfold fillLoop
    rw [hsr]
    exact hfl

/- ## Specification lemmas for the inclusion step -/

theorem lowercase_subset_charSet {config : PasswordConfig}
    (hb : config.UseLowercase = true) {c : Char} (hc : c ∈ lowercaseChars) :
    c ∈ charSetOf config := by
  unfold charSetOf
  rw [hb]
  simp [hc]

theorem uppercase_subset_charSet {config : PasswordConfig}
    (hb : config.UseUppercase = true) {c : Char} (hc : c ∈ uppercaseChars) :
    c ∈ charSetOf config := by
  unfold charSetOf
  rw [hb]
  simp [hc]

theorem number_subset_charSet {config : PasswordConfig}
    (hb : config.UseNumbers = true) {c : Char} (hc : c ∈ numberChars) :
    c ∈ charSetOf config := by
  unfold charSetOf
  rw [hb]
  simp [hc]

theorem special_subset_charSet {config : PasswordConfig}
    (hb : config.UseSpecialChars = true) {c : Char} (hc : c ∈ specialChars) :
    c ∈ charSetOf config := by
  unfold charSetOf
  rw [hb]
  simp [hc]

theorem inclusionStep_ok {config : PasswordConfig} {p : List Char} {s t : RngSt}
    (h : inclusionStep config s = (Except.ok p, t)) :
    p.length = numEnabled config ∧
    (∀ c ∈ p, c ∈ charSetOf config) ∧
    (config.UseLowercase = true → ∃ c ∈ p, c ∈ lowercaseChars) ∧
    (config.UseUppercase = true → ∃ c ∈ p, c ∈ uppercaseChars) ∧
    (config.UseNumbers = true → ∃ c ∈ p, c ∈ numberChars) ∧
    (config.UseSpecialChars = true → ∃ c ∈ p, c ∈ specialChars) ∧
    t.src = s.src ∧ t.trace = s.trace ++ inclBounds config := by
  unfold inclusionStep at h
  split at h
  next => simp at h
  next p1 s1 h1 =>
    split at h
    next => simp at h
    next p2 s2 h2 =>
      split at h
      next => simp at h
      next p3 s3 h3 =>
              obtain ⟨e1, hp1, hm1, hl1, hsrc1, htr1⟩ := drawIncl_ok h1
              obtain ⟨e2, hp2, hm2, hl2, hsrc2, htr2⟩ := drawIncl_ok h2
              obtain ⟨e3, hp3, hm3, hl3, hsrc3, htr3⟩ := drawIncl_ok h3
              obtain ⟨e4, hp4, hm4, hl4, hsrc4, htr4⟩ := drawIncl_ok h
              have hp : p = e1 ++ e2 ++ e3 ++ e4 := by
                rw [hp4, hp3, hp2, hp1]; simp
              have hne : ∀ (b : Bool) (ext : List Char),
                  ext.length = (if b = true then 1 else 0) → b = true → ext ≠ [] := by
                intro b ext hlen hb
                rw [hb] at hlen
                simp at hlen
                intro hemp
                rw [hemp] at hlen
                simp at hlen
              refine ⟨?_, ?_, ?_, ?_, ?_, ?_, ?_, ?_⟩
              · rw [hp]
                simp only [List.length_append, hl1, hl2, hl3, hl4]
                unfold numEnabled
                omega
              · intro c hc
                rw [hp] at hc
                simp only [List.mem_append] at hc
                rcases hc with ((hc | hc) | hc) | hc
                · have hb : config.UseLowercase = true := by
                    by_contra hb
                    have := hl1
                    rw [if_neg hb] at this
                    rw [List.length_eq_zero.mp this] at hc
                    simp at hc
                  exact lowercase_subset_charSet hb (hm1 c hc)
                · have hb : config.UseUppercase = true := by
                    by_contra hb
                    have := hl2
                    rw [if_neg hb] at this
                    rw [List.length_eq_zero.mp this] at hc
                    simp at hc
                  exact uppercase_subset_charSet hb (hm2 c hc)
                · have hb : config.UseNumbers = true := by
                    by_contra hb
                    have := hl3
                    rw [if_neg hb] at this
                    rw [List.length_eq_zero.mp this] at hc
                    simp at hc
                  exact number_subset_charSet hb (hm3 c hc)
                · have hb : config.UseSpecialChars = true := by
                    by_contra hb
                    have := hl4
                    rw [if_neg hb] at this
                    rw [List.length_eq_zero.mp this] at hc
                    simp at hc
                  exact special_subset_charSet hb (hm4 c hc)
              · intro hb
                obtain ⟨c, hc⟩ := List.exists_mem_of_ne_nil _ (hne _ _ hl1 hb)
                exact ⟨c, by rw [hp]; simp [hc], hm1 c hc⟩
              · intro hb
                obtain ⟨c, hc⟩ := List.exists_mem_of_ne_nil _ (hne _ _ hl2 hb)
                exact ⟨c, by rw [hp]; simp [hc], hm2 c hc⟩
              · intro hb
                obtain ⟨c, hc⟩ := List.exists_mem_of_ne_nil _ (hne _ _ hl3 hb)
                exact ⟨c, by rw [hp]; simp [hc], hm3 c hc⟩
              · intro hb
                obtain ⟨c, hc⟩ := List.exists_mem_of_ne_nil _ (hne _ _ hl4 hb)
                exact ⟨c, by rw [hp]; simp [hc], hm4 c hc⟩
              · rw [hsrc4, hsrc3, hsrc2, hsrc1]
              · rw [htr4, htr3, htr2, htr1]
                unfold inclBounds
                simp

theorem inclusionStep_error {config : PasswordConfig} {s t : RngSt} {e : GenError}
    (h : inclusionStep config s = (Except.error e, t)) : e = GenError.rngError := by
  unfold inclusionStep at h
  split at h
  next e1 t1 h1 =>
    simp only [Prod.mk.injEq, Except.error.injEq] at h
    exact h.1 ▸ drawIncl_error h1
  next p1 s1 h1 =>
    split at h
    next e2 t2 h2 =>
      simp only [Prod.mk.injEq, Except.error.injEq] at h
      exact h.1 ▸ drawIncl_error h2
    next p2 s2 h2 =>
      split at h
      next e3 t3 h3 =>
        simp only [Prod.mk.injEq, Except.error.injEq] at h
        exact h.1 ▸ drawIncl_error h3
      next p3 s3 h3 => exact drawIncl_error h

theorem inclusionStep_total {config : PasswordConfig} {s : RngSt}
    (hs : srcTotal s.src) :
    ∃ p t, inclusionStep config s = (Except.ok p, t) ∧ t.src = s.src := by
  obtain ⟨p1, s1, h1, hsrc1⟩ :=
    @drawIncl_total config.UseLowercase lowercaseChars [] s
      (by decide : lowercaseChars.length ≠ 0) hs
  obtain ⟨p2, s2, h2, hsrc2⟩ :=
    @drawIncl_total config.UseUppercase uppercaseChars p1 s1
      (by decide : uppercaseChars.length ≠ 0) (by rw [hsrc1]; exact hs)
  obtain ⟨p3, s3, h3, hsrc3⟩ :=
    @drawIncl_total config.UseNumbers numberChars p2 s2
      (by decide : numberChars.length ≠ 0) (by rw [hsrc2, hsrc1]; exact hs)
  obtain ⟨p4, s4, h4, hsrc4⟩ :=
    @drawIncl_total config.UseSpecialChars specialChars p3 s3
      (by decide : specialChars.length ≠ 0) (by rw [hsrc3, hsrc2, hsrc1]; exact hs)
  refine ⟨p4, s4, ?_, by rw [hsrc4, hsrc3, hsrc2, hsrc1]⟩
  unfold inclusionStep
  simp only [h1, h2, h3]
  exact h4

/- ## Specification lemmas for the build phase -/

theorem numEnabled_le_four (config : PasswordConfig) : numEnabled config ≤ 4 := by
  unfold numEnabled
  split_ifs <;> omega

theorem charSetOf_length_ne_zero {config : PasswordConfig}
    (h : config.UseLowercase = true ∨ config.UseUppercase = true ∨
      config.UseNumbers = true ∨ config.UseSpecialChars = true) :
    (charSetOf config).length ≠ 0 := by
  have hmem : ∃ c, c ∈ charSetOf config := by
    rcases h with h | h | h | h
    · exact ⟨'a', lowercase_subset_charSet h (by decide)⟩
    · exact ⟨'A', uppercase_subset_charSet h (by decide)⟩
    · exact ⟨'0', number_subset_charSet h (by decide)⟩
    · exact ⟨'!', special_subset_charSet h (by decide)⟩
  obtain ⟨c, hc⟩ := hmem
  intro h0
  rw [List.length_eq_zero.mp h0] at hc
  simp at hc

theorem buildPhase_ok {config : PasswordConfig} {p5 : List Char} {s s5 : RngSt}
    (h : buildPhase config s = (Except.ok p5, s5)) :
    p5.length = numEnabled config +
      (config.Length - (numEnabled config : Int)).toNat ∧
    (∀ c ∈ p5, c ∈ charSetOf config) ∧
    (config.UseLowercase = true → ∃ c ∈ p5, c ∈ lowercaseChars) ∧
    (config.UseUppercase = true → ∃ c ∈ p5, c ∈ uppercaseChars) ∧
    (config.UseNumbers = true → ∃ c ∈ p5, c ∈ numberChars) ∧
    (config.UseSpecialChars = true → ∃ c ∈ p5, c ∈ specialChars) ∧
    s5.src = s.src ∧
    s5.trace = s.trace ++ inclBounds config ++
      List.replicate (config.Length - (numEnabled config : Int)).toNat
        (charSetOf config).length := by
  unfold buildPhase at h
  split at h
  next => simp at h
  next p4 s4 h4 =>
    obtain ⟨hlen4, hallow4, hlo, hup, hnum, hsp, hsrc4, htr4⟩ := inclusionStep_ok h4
    obtain ⟨ext, hacc, hextlen, hextmem, hsrc5, htr5⟩ := fillLoop_ok h
    have hmem45 : ∀ c ∈ p4, c ∈ p5 := by
      intro c hc
      rw [hacc]
      exact List.mem_append_left _ hc
    refine ⟨?_, ?_, ?_, ?_, ?_, ?_, ?_, ?_⟩
    · rw [hacc]
      simp only [List.length_append, hextlen, hlen4]
    · intro c hc
      rw [hacc] at hc
      rcases List.mem_append.mp hc with hc | hc
      · exact hallow4 c hc
      · exact hextmem c hc
    · intro hb
      obtain ⟨c, hc, hcl⟩ := hlo hb
      exact ⟨c, hmem45 c hc, hcl⟩
    · intro hb
      obtain ⟨c, hc, hcl⟩ := hup hb
      exact ⟨c, hmem45 c hc, hcl⟩
    · intro hb
      obtain ⟨c, hc, hcl⟩ := hnum hb
      exact ⟨c, hmem45 c hc, hcl⟩
    · intro hb
      obtain ⟨c, hc, hcl⟩ := hsp hb
      exact ⟨c, hmem45 c hc, hcl⟩
    · rw [hsrc5, hsrc4]
    · rw [htr5, htr4, hlen4]

theorem buildPhase_error {config : PasswordConfig} {s t : RngSt} {e : GenError}
    (h : buildPhase config s = (Except.error e, t)) : e = GenError.rngError := by
  unfold buildPhase at h
  split at h
  next e1 t1 h1 =>
    simp only [Prod.mk.injEq, Except.error.injEq] at h
    exact h.1 ▸ inclusionStep_error h1
  next p4 s4 h4 => exact fillLoop_error h

theorem buildPhase_total {config : PasswordConfig} {s : RngSt}
    (hs : srcTotal s.src)
    (hcs : config.UseLowercase = true ∨ config.UseUppercase = true ∨
      config.UseNumbers = true ∨ config.UseSpecialChars = true) :
    ∃ p5 s5, buildPhase config s = (Except.ok p5, s5) ∧ s5.src = s.src := by
  obtain ⟨p4, s4, h4, hsrc4⟩ := @inclusionStep_total config s hs
  obtain ⟨p5, s5, h5, hsrc5⟩ :=
    fillLoop_total (charSetOf_length_ne_zero hcs)
      (config.Length - (p4.length : Int)).toNat p4 s4 (by rw [hsrc4]; exact hs)
  refine ⟨p5, s5, ?_, by rw [hsrc5, hsrc4]⟩
  unfold buildPhase
  rw [h4]
  exact h5

/- ## The swap is a permutation -/

theorem getD_set_self : ∀ (l : List Char) (i : Nat), i < l.length → ∀ b : Char,
    (l.set i b).getD i ' ' = b
  | [], i, h, b => absurd h (by simp)
  | a :: tl, 0, _, b => rfl
  | a :: tl, Nat.succ n, h, b => getD_set_self tl n (by simpa using h) b

theorem getD_set_ne (b : Char) : ∀ (l : List Char) (i j : Nat), i ≠ j →
    (l.set i b).getD j ' ' = l.getD j ' '
  | [], _, _, _ => by simp
  | a :: tl, 0, 0, h => absurd rfl h
  | a :: tl, 0, Nat.succ m, _ => rfl
  | a :: tl, Nat.succ n, 0, _ => rfl
  | a :: tl, Nat.succ n, Nat.succ m, h =>
    getD_set_ne b tl n m (fun hh => h (by rw [hh]))

theorem count_set (b c : Char) : ∀ (l : List Char) (i : Nat), i < l.length →
    (l.set i b).count c + (if l.getD i ' ' = c then 1 else 0)
      = l.count c + (if b = c then 1 else 0) := by
  intro l
  induction l with
  | nil => intro i h; simp at h
  | cons a tl ih =>
    intro i h
    cases i with
    | zero =>
      by_cases hbc : b = c <;> by_cases hac : a = c <;>
        simp [List.count_cons, hbc, hac]
    | succ n =>
      have hn : n < tl.length := by simpa using h
      have := ih n hn
      by_cases h1 : tl.getD n ' ' = c <;> by_cases h2 : b = c <;>
        by_cases h3 : a = c <;>
          simp only [List.set_cons_succ, List.getD_cons_succ, List.count_cons,
            h1, h2, h3, if_true, if_false] at this ⊢ <;>
        omega

theorem count_swapList (c : Char) {l : List Char} {i j : Nat}
    (hi : i < l.length) (hj : j < l.length) :
    (swapList l i j).count c = l.count c := by
  unfold swapList
  have hlen : (l.set i (l.getD j ' ')).length = l.length := by simp
  have h1 := count_set (l.getD j ' ') c l i hi
  have h2 := count_set (l.getD i ' ') c (l.set i (l.getD j ' ')) j (by omega)
  have hgd : (l.set i (l.getD j ' ')).getD j ' ' = l.getD j ' ' := by
    by_cases hij : i = j
    · subst hij; exact getD_set_self l i hi _
    · exact getD_set_ne _ l i j hij
  rw [hgd] at h2
  split_ifs at h1 h2 <;> omega

theorem swapList_length (l : List Char) (i j : Nat) :
    (swapList l i j).length = l.length := by
  unfold swapList
  simp

theorem swapList_perm {l : List Char} {i j : Nat}
    (hi : i < l.length) (hj : j < l.length) :
    List.Perm (swapList l i j) l :=
  List.perm_iff_count.mpr fun c => count_swapList c hi hj

/- ## Specification lemmas for the shuffle -/

theorem shuffleLoop_ok : ∀ {n : Nat} {l l' : List Char} {s t : RngSt},
    n < l.length → shuffleLoop n l s = (Except.ok l', t) →
    List.Perm l' l ∧ t.src = s.src ∧ t.trace = s.trace ++ shuffleBounds n := by
  intro n
  induction n with
  | zero =>
    intro l l' s t _ h
    unfold shuffleLoop at h
    simp only [Prod.mk.injEq, Except.ok.injEq] at h
    obtain ⟨hl, ht⟩ := h
    subst ht
    rw [hl]
    exact ⟨List.Perm.refl _, rfl, by simp [shuffleBounds]⟩
  | succ n ih =>
    intro l l' s t hn h
    unfold shuffleLoop at h
    split at h
    next e t' hsr => simp at h
    next j t' hsr =>
      obtain ⟨hj, hsrc, htr⟩ := secureRandomInt_ok hsr
      have hjl : j < l.length := by omega
      have hswlen : (swapList l (n + 1) j).length = l.length := swapList_length l _ j
      obtain ⟨hperm, hsrc2, htr2⟩ := ih (by omega) h
      refine ⟨hperm.trans (swapList_perm hn hjl), by rw [hsrc2, hsrc], ?_⟩
      rw [htr2, htr]
      simp [shuffleBounds, List.append_assoc]

theorem shuffleLoop_error : ∀ {n : Nat} {l : List Char} {s t : RngSt} {e : GenError},
    shuffleLoop n l s = (Except.error e, t) → e = GenError.rngError := by
  intro n
  induction n with
  | zero =>
    intro l s t e h
    unfold shuffleLoop at h
    simp at h
  | succ n ih =>
    intro l s t e h
    unfold shuffleLoop at h
    split at h
    next e' t' hsr =>
      simp only [Prod.mk.injEq, Except.error.injEq] at h
      exact h.1 ▸ secureRandomInt_error hsr
    next j t' hsr => exact ih h

theorem shuffleLoop_total : ∀ (n : Nat) (l : List Char) (s : RngSt), srcTotal s.src →
    ∃ l' t, shuffleLoop n l s = (Except.ok l', t) ∧ t.src = s.src := by
  intro n
  induction n with
  | zero => intro l s _; exact ⟨l, s, rfl, rfl⟩
  | succ n ih =>
    intro l s hs
    obtain ⟨j, t, hsr, hsrc⟩ :=
      secureRandomInt_total (m := n + 2) (by omega) hs
    obtain ⟨l', t', hsl, hsrc2⟩ := ih (swapList l (n + 1) j) t (by rw [hsrc]; exact hs)
    refine ⟨l', t', ?_, by rw [hsrc2, hsrc]⟩
    unfold shuffleLoop
    rw [hsr]
    exact hsl

theorem shuffleBounds_length : ∀ n : Nat, (shuffleBounds n).length = n
  | 0 => rfl
  | Nat.succ n => by simp [shuffleBounds, shuffleBounds_length n]

/- ## Validation lemmas -/

theorem validateConfig_invalidLength {config : PasswordConfig}
    (hL : config.Length < minPasswordLength) :
    validateConfig config = some GenError.invalidLength := by
  unfold validateConfig
  rw [if_pos hL]

theorem validateConfig_noClass {config : PasswordConfig}
    (hL : ¬ config.Length < minPasswordLength)
    (h1 : config.UseLowercase = false) (h2 : config.UseUppercase = false)
    (h3 : config.UseNumbers = false) (h4 : config.UseSpecialChars = false) :
    validateConfig config = some GenError.noCharacterClassSelected := by
  unfold validateConfig
  rw [if_neg hL, h1, h2, h3, h4]
  rfl

theorem validateConfig_none {config : PasswordConfig}
    (h : validateConfig config = none) :
    minPasswordLength ≤ config.Length ∧
      (config.UseLowercase = true ∨ config.UseUppercase = true ∨
       config.UseNumbers = true ∨ config.UseSpecialChars = true) := by
  unfold validateConfig at h
  by_cases hL : config.Length < minPasswordLength
  · rw [if_pos hL] at h
    simp at h
  · rw [if_neg hL] at h
    refine ⟨Int.not_lt.mp hL, ?_⟩
    by_contra hb
    push_neg at hb
    obtain ⟨n1, n2, n3, n4⟩ := hb
    simp only [Bool.not_eq_true] at n1 n2 n3 n4
    rw [n1, n2, n3, n4] at h
    simp at h

/- ## Character-class tables are pairwise disjoint -/

theorem lower_upper_disjoint : ∀ c ∈ lowercaseChars, c ∉ uppercaseChars := by decide

theorem lower_number_disjoint : ∀ c ∈ lowercaseChars, c ∉ numberChars := by decide

theorem lower_special_disjoint : ∀ c ∈ lowercaseChars, c ∉ specialChars := by decide

theorem upper_number_disjoint : ∀ c ∈ uppercaseChars, c ∉ numberChars := by decide

theorem upper_special_disjoint : ∀ c ∈ uppercaseChars, c ∉ specialChars := by decide

theorem number_special_disjoint : ∀ c ∈ numberChars, c ∉ specialChars := by decide

theorem mem_charSetOf {config : PasswordConfig} {c : Char} :
    c ∈ charSetOf config ↔
      (config.UseLowercase = true ∧ c ∈ lowercaseChars) ∨
      (config.UseUppercase = true ∧ c ∈ uppercaseChars) ∨
      (config.UseNumbers = true ∧ c ∈ numberChars) ∨
      (config.UseSpecialChars = true ∧ c ∈ specialChars) := by
  unfold charSetOf
  cases config.UseLowercase <;> cases config.UseUppercase <;>
    cases config.UseNumbers <;> cases config.UseSpecialChars <;> simp

theorem inclBounds_length (config : PasswordConfig) :
    (inclBounds config).length = numEnabled config := by
  unfold inclBounds numEnabled
  split_ifs <;> simp

/- ## Master specification of a successful generation -/

theorem generatePassword_ok_spec {config : PasswordConfig} {s t : RngSt}
    {p : List Char} (h : generatePassword config s = (Except.ok p, t)) :
    validateConfig config = none ∧
    minPasswordLength ≤ config.Length ∧
    (p.length : Int) = config.Length ∧
    (∀ c ∈ p, c ∈ charSetOf config) ∧
    (config.UseLowercase = true → ∃ c ∈ p, c ∈ lowercaseChars) ∧
    (config.UseUppercase = true → ∃ c ∈ p, c ∈ uppercaseChars) ∧
    (config.UseNumbers = true → ∃ c ∈ p, c ∈ numberChars) ∧
    (config.UseSpecialChars = true → ∃ c ∈ p, c ∈ specialChars) ∧
    t.src = s.src ∧
    t.trace = s.trace ++ inclBounds config ++
      List.replicate (config.Length.toNat - numEnabled config)
        (charSetOf config).length ++
      shuffleBounds (config.Length.toNat - 1) := by
  unfold generatePassword at h
  split at h
  next e hv => simp at h
  next hv =>
    split at h
    next e t' hb => simp at h
    next p5 s5 hb =>
      obtain ⟨hL, hcls⟩ := validateConfig_none hv
      have hL6 : (6 : Int) ≤ config.Length := hL
      obtain ⟨hlen5, hallow, hlo, hup, hnum, hsp, hsrc5, htr5⟩ := buildPhase_ok hb
      have hk4 : numEnabled config ≤ 4 := numEnabled_le_four config
      have hLen5 : (p5.length : Int) = config.Length := by omega
      have hpos : p5.length - 1 < p5.length := by omega
      obtain ⟨hperm, hsrct, htrt⟩ := shuffleLoop_ok hpos h
      have hrepl : (config.Length - (numEnabled config : Int)).toNat
          = config.Length.toNat - numEnabled config := by omega
      have hstart : p5.length - 1 = config.Length.toNat - 1 := by omega
      refine ⟨hv, hL, ?_, ?_, ?_, ?_, ?_, ?_, ?_, ?_⟩
      · rw [hperm.length_eq]
        exact hLen5
      · intro c hc
        exact hallow c (hperm.subset hc)
      · intro hbc
        obtain ⟨c, hc, hcl⟩ := hlo hbc
        exact ⟨c, hperm.symm.subset hc, hcl⟩
      · intro hbc
        obtain ⟨c, hc, hcl⟩ := hup hbc
        exact ⟨c, hperm.symm.subset hc, hcl⟩
      · intro hbc
        obtain ⟨c, hc, hcl⟩ := hnum hbc
        exact ⟨c, hperm.symm.subset hc, hcl⟩
      · intro hbc
        obtain ⟨c, hc, hcl⟩ := hsp hbc
        exact ⟨c, hperm.symm.subset hc, hcl⟩
      · rw [hsrct, hsrc5]
      · rw [htrt, htr5, hrepl, hstart]

/- ## Concrete inputs used by the witnesses -/

/-- A random source that always answers 0. -/
def srcZero : Nat → Option Nat := fun _ => some 0

def rngZero : RngSt := ⟨srcZero, []⟩

/-- A random source that answers 0 six times and then fails. -/
def srcFail6 : Nat → Option Nat := fun n => if n < 6 then some 0 else none

def rngFail6 : RngSt := ⟨srcFail6, []⟩

def cfgAll : PasswordConfig := ⟨6, true, true, true, true⟩

def cfgMixed : PasswordConfig := ⟨8, true, false, true, false⟩

def cfgShort : PasswordConfig := ⟨5, true, true, true, true⟩

def cfgNone5 : PasswordConfig := ⟨5, false, false, false, false⟩

def cfgNone10 : PasswordConfig := ⟨10, false, false, false, false⟩

/-- Password produced by `cfgAll` under `srcZero`. -/
def pwAll : List Char := ['A', '0', '!', 'a', 'a', 'a']

def stAll : RngSt := ⟨srcZero, [26, 26, 10, 26, 88, 88, 6, 5, 4, 3, 2]⟩

/-- Pre-shuffle accumulator for `cfgAll` under `srcZero`. -/
def buildAll : List Char := ['a', 'A', '0', '!', 'a', 'a']

def stBuildAll : RngSt := ⟨srcZero, [26, 26, 10, 26, 88, 88]⟩

def stBuildAllF : RngSt := ⟨srcFail6, [26, 26, 10, 26, 88, 88]⟩

def stFailAll : RngSt := ⟨srcFail6, [26, 26, 10, 26, 88, 88, 6]⟩

/-- Password produced by `cfgMixed` under `srcZero`. -/
def pwMixed : List Char := ['0', 'a', 'a', 'a', 'a', 'a', 'a', 'a']

def stMixed : RngSt := ⟨srcZero, [26, 10, 36, 36, 36, 36, 36, 36, 8, 7, 6, 5, 4, 3, 2]⟩

/- ## Claim theorems -/

/-- C1: for every config that passes validation, a successfully returned
password contains at least one character from each enabled class's table
and no character from any disabled class's table. -/
theorem generatePassword_class_coverage {config : PasswordConfig} {s t : RngSt}
    {p : List Char} (h : generatePassword config s = (Except.ok p, t)) :
    (config.UseLowercase = true → ∃ c ∈ p, c ∈ lowercaseChars) ∧
    (config.UseUppercase = true → ∃ c ∈ p, c ∈ uppercaseChars) ∧
    (config.UseNumbers = true → ∃ c ∈ p, c ∈ numberChars) ∧
    (config.UseSpecialChars = true → ∃ c ∈ p, c ∈ specialChars) ∧
    (config.UseLowercase = false → ∀ c ∈ p, c ∉ lowercaseChars) ∧
    (config.UseUppercase = false → ∀ c ∈ p, c ∉ uppercaseChars) ∧
    (config.UseNumbers = false → ∀ c ∈ p, c ∉ numberChars) ∧
    (config.UseSpecialChars = false → ∀ c ∈ p, c ∉ specialChars) := by
  obtain ⟨hv, hL, hlen, hallow, hlo, hup, hnum, hsp, _, _⟩ :=
    generatePassword_ok_spec h
  refine ⟨hlo, hup, hnum, hsp, ?_, ?_, ?_, ?_⟩
  · intro hb c hc hcl
    rcases mem_charSetOf.mp (hallow c hc) with ⟨ht, _⟩ | ⟨_, hm⟩ | ⟨_, hm⟩ | ⟨_, hm⟩
    · rw [hb] at ht; exact Bool.false_ne_true ht
    · exact lower_upper_disjoint c hcl hm
    · exact lower_number_disjoint c hcl hm
    · exact lower_special_disjoint c hcl hm
  · intro hb c hc hcu
    rcases mem_charSetOf.mp (hallow c hc) with ⟨_, hm⟩ | ⟨ht, _⟩ | ⟨_, hm⟩ | ⟨_, hm⟩
    · exact lower_upper_disjoint c hm hcu
    · rw [hb] at ht; exact Bool.false_ne_true ht
    · exact upper_number_disjoint c hcu hm
    · exact upper_special_disjoint c hcu hm
  · intro hb c hc hcn
    rcases mem_charSetOf.mp (hallow c hc) with ⟨_, hm⟩ | ⟨_, hm⟩ | ⟨ht, _⟩ | ⟨_, hm⟩
    · exact lower_number_disjoint c hm hcn
    · exact upper_number_disjoint c hm hcn
    · rw [hb] at ht; exact Bool.false_ne_true ht
    · exact number_special_disjoint c hcn hm
  · intro hb c hc hcs
    rcases mem_charSetOf.mp (hallow c hc) with ⟨_, hm⟩ | ⟨_, hm⟩ | ⟨_, hm⟩ | ⟨ht, _⟩
    · exact lower_special_disjoint c hm hcs
    · exact upper_special_disjoint c hm hcs
    · exact number_special_disjoint c hm hcs
    · rw [hb] at ht; exact Bool.false_ne_true ht

/-- C1 witness: a concrete run with lowercase and numbers enabled,
uppercase and specials disabled. -/
theorem generatePassword_class_coverage_witness :
    (cfgMixed.UseLowercase = true → ∃ c ∈ pwMixed, c ∈ lowercaseChars) ∧
    (cfgMixed.UseUppercase = true → ∃ c ∈ pwMixed, c ∈ uppercaseChars) ∧
    (cfgMixed.UseNumbers = true → ∃ c ∈ pwMixed, c ∈ numberChars) ∧
    (cfgMixed.UseSpecialChars = true → ∃ c ∈ pwMixed, c ∈ specialChars) ∧
    (cfgMixed.UseLowercase = false → ∀ c ∈ pwMixed, c ∉ lowercaseChars) ∧
    (cfgMixed.UseUppercase = false → ∀ c ∈ pwMixed, c ∉ uppercaseChars) ∧
    (cfgMixed.UseNumbers = false → ∀ c ∈ pwMixed, c ∉ numberChars) ∧
    (cfgMixed.UseSpecialChars = false → ∀ c ∈ pwMixed, c ∉ specialChars) :=
  @generatePassword_class_coverage cfgMixed rngZero stMixed pwMixed rfl

/-- C2: for every config that passes validation and every never-failing
random source, generatePassword succeeds and the password's length is
exactly config.Length. -/
theorem generatePassword_length_exact {config : PasswordConfig} {s : RngSt}
    (hval : validateConfig config = none) (hs : srcTotal s.src) :
    ∃ p t, generatePassword config s = (Except.ok p, t) ∧
      (p.length : Int) = config.Length := by
  obtain ⟨hL, hcls⟩ := validateConfig_none hval
  obtain ⟨p5, s5, hb, hsrc5⟩ := buildPhase_total hs hcls
  obtain ⟨p, t, hsl, _⟩ :=
    shuffleLoop_total (p5.length - 1) p5 s5 (by rw [hsrc5]; exact hs)
  refine ⟨p, t, ?_, ?_⟩
  · unfold generatePassword
    simp only [hval, hb]
    exact hsl
  · obtain ⟨hlen5, _⟩ := buildPhase_ok hb
    have hk4 := numEnabled_le_four config
    have hL6 : (6 : Int) ≤ config.Length := hL
    have hLen5 : (p5.length : Int) = config.Length := by omega
    have hpos : p5.length - 1 < p5.length := by omega
    obtain ⟨hperm, _, _⟩ := shuffleLoop_ok hpos hsl
    rw [hperm.length_eq]
    exact hLen5

/-- C2 witness: the all-classes length-6 config under the all-zeros source. -/
theorem generatePassword_length_exact_witness :
    ∃ p t, generatePassword cfgAll rngZero = (Except.ok p, t) ∧
      (p.length : Int) = cfgAll.Length :=
  @generatePassword_length_exact cfgAll rngZero rfl
    (fun _ h => Option.noConfusion h)

/-- C3 counterexample: with all four classes disabled and length 5,
generatePassword fails with the invalid-length error, which is not
NoCharacterClassSelected — the length check fires first. -/
theorem allFalse_short_fails_invalidLength :
    (generatePassword cfgNone5 rngZero).1 = Except.error GenError.invalidLength ∧
    GenError.invalidLength ≠ GenError.noCharacterClassSelected :=
  ⟨rfl, by decide⟩

/-- C3 (amended): with all four class booleans false, generatePassword
fails with NoCharacterClassSelected for every length ≥ 6 (below 6 the
InvalidLength check fires first). -/
theorem generatePassword_noClass {config : PasswordConfig} {s : RngSt}
    (h1 : config.UseLowercase = false) (h2 : config.UseUppercase = false)
    (h3 : config.UseNumbers = false) (h4 : config.UseSpecialChars = false)
    (hL : minPasswordLength ≤ config.Length) :
    generatePassword config s =
      (Except.error GenError.noCharacterClassSelected, s) := by
  unfold generatePassword
  simp only [validateConfig_noClass (Int.not_lt.mpr hL) h1 h2 h3 h4]

/-- C3 witness: the all-disabled length-10 config. -/
theorem generatePassword_noClass_witness :
    generatePassword cfgNone10 rngZero =
      (Except.error GenError.noCharacterClassSelected, rngZero) :=
  generatePassword_noClass rfl rfl rfl rfl (by decide)

/-- C4 counterexample: the special-character table does not contain 28
characters. -/
theorem specialChars_count_not_28 :
    ¬ (specialChars = "!@#$%^&*()_+-=[]\x7b\x7d|;:,.<>?".toList ∧
       specialChars.length = 28) := by decide

/-- C4 (amended): the special-character class table is the fixed string
of symbols from src/main.go line 18 and it contains 26 characters. -/
theorem specialChars_spec :
    specialChars = "!@#$%^&*()_+-=[]\x7b\x7d|;:,.<>?".toList ∧
    specialChars.length = 26 :=
  ⟨rfl, by decide⟩

/-- C5: for every config with Length below the 6-character floor,
generatePassword fails with InvalidLength for every combination of the
class booleans. -/
theorem generatePassword_invalidLength {config : PasswordConfig} {s : RngSt}
    (hL : config.Length < minPasswordLength) :
    generatePassword config s = (Except.error GenError.invalidLength, s) := by
  unfold generatePassword
  simp only [validateConfig_invalidLength hL]

/-- C5 witness: length 5 with every class enabled. -/
theorem generatePassword_invalidLength_witness :
    generatePassword cfgShort rngZero =
      (Except.error GenError.invalidLength, rngZero) :=
  generatePassword_invalidLength (by decide)

/-- C6: whenever validation rejects the config, generatePassword returns
that error with the random-source state unchanged — the trace records
zero draws. -/
theorem generatePassword_invalid_no_draws {config : PasswordConfig}
    {s : RngSt} {e : GenError} (h : validateConfig config = some e) :
    generatePassword config s = (Except.error e, s) ∧
    (generatePassword config s).2.trace = s.trace := by
  have h1 : generatePassword config s = (Except.error e, s) := by
    unfold generatePassword
    simp only [h]
  exact ⟨h1, by rw [h1]⟩

/-- C6 witness: the invalid all-disabled length-5 config consumes nothing. -/
theorem generatePassword_invalid_no_draws_witness :
    generatePassword cfgNone5 rngZero =
      (Except.error GenError.invalidLength, rngZero) ∧
    (generatePassword cfgNone5 rngZero).2.trace = rngZero.trace :=
  generatePassword_invalid_no_draws rfl

/-- C7: the composed alphabet is the concatenation, in the canonical
order lowercase, uppercase, numbers, specials, of exactly the enabled
tables; on a successful run the trace shows the inclusion step drawing
with each enabled class's own table length, in that order, and every
fill draw using the composed alphabet's length. -/
theorem generatePassword_alphabets {config : PasswordConfig} {s t : RngSt}
    {p : List Char} (h : generatePassword config s = (Except.ok p, t)) :
    charSetOf config =
      (if config.UseLowercase then lowercaseChars else []) ++
      (if config.UseUppercase then uppercaseChars else []) ++
      (if config.UseNumbers then numberChars else []) ++
      (if config.UseSpecialChars then specialChars else []) ∧
    inclBounds config =
      (if config.UseLowercase then [lowercaseChars.length] else []) ++
      (if config.UseUppercase then [uppercaseChars.length] else []) ++
      (if config.UseNumbers then [numberChars.length] else []) ++
      (if config.UseSpecialChars then [specialChars.length] else []) ∧
    t.trace = s.trace ++ inclBounds config ++
      List.replicate (config.Length.toNat - numEnabled config)
        (charSetOf config).length ++
      shuffleBounds (config.Length.toNat - 1) :=
  ⟨rfl, rfl, (generatePassword_ok_spec h).2.2.2.2.2.2.2.2.2⟩

/-- C7 witness: the all-classes config's concrete trace. -/
theorem generatePassword_alphabets_witness :
    charSetOf cfgAll =
      (if cfgAll.UseLowercase then lowercaseChars else []) ++
      (if cfgAll.UseUppercase then uppercaseChars else []) ++
      (if cfgAll.UseNumbers then numberChars else []) ++
      (if cfgAll.UseSpecialChars then specialChars else []) ∧
    inclBounds cfgAll =
      (if cfgAll.UseLowercase then [lowercaseChars.length] else []) ++
      (if cfgAll.UseUppercase then [uppercaseChars.length] else []) ++
      (if cfgAll.UseNumbers then [numberChars.length] else []) ++
      (if cfgAll.UseSpecialChars then [specialChars.length] else []) ∧
    stAll.trace = rngZero.trace ++ inclBounds cfgAll ++
      List.replicate (cfgAll.Length.toNat - numEnabled cfgAll)
        (charSetOf cfgAll).length ++
      shuffleBounds (cfgAll.Length.toNat - 1) :=
  @generatePassword_alphabets cfgAll rngZero stAll pwAll rfl

/-- C8: the shuffle is Fisher-Yates — at index i + 1 it draws j with
bound i + 2 (so j ≤ i + 1) and swaps positions i + 1 and j, descending
to index 1; a failed draw aborts generatePassword with RngError and no
password. -/
theorem shuffle_fisher_yates :
    (∀ (i : Nat) (l : List Char) (s t : RngSt) (e : GenError),
      secureRandomInt (i + 2) s = (Except.error e, t) →
      shuffleLoop (i + 1) l s = (Except.error e, t) ∧ e = GenError.rngError) ∧
    (∀ (i j : Nat) (s t : RngSt),
      secureRandomInt (i + 2) s = (Except.ok j, t) → j ≤ i + 1) ∧
    (∀ (i j : Nat) (l : List Char) (s t : RngSt),
      secureRandomInt (i + 2) s = (Except.ok j, t) →
      shuffleLoop (i + 1) l s = shuffleLoop i (swapList l (i + 1) j) t) ∧
    (∀ (config : PasswordConfig) (s s5 t : RngSt) (p5 : List Char)
      (e : GenError),
      validateConfig config = none → buildPhase config s = (Except.ok p5, s5) →
      shuffleLoop (p5.length - 1) p5 s5 = (Except.error e, t) →
      generatePassword config s = (Except.error e, t) ∧
        e = GenError.rngError) := by
  refine ⟨?_, ?_, ?_, ?_⟩
  · intro i l s t e hsr
    constructor
    · unfold shuffleLoop
      simp only [hsr]
    · exact secureRandomInt_error hsr
  · intro i j s t hsr
    have := (secureRandomInt_ok hsr).1
    omega
  · intro i j l s t hsr
    have hstep : shuffleLoop (i + 1) l s =
        match secureRandomInt (i + 2) s with
        | (Except.error e, t') => (Except.error e, t')
        | (Except.ok j', t') => shuffleLoop i (swapList l (i + 1) j') t' := rfl
    rw [hstep, hsr]
  · intro config s s5 t p5 e hv hb hsl
    constructor
    · unfold generatePassword
      simp only [hv, hb]
      exact hsl
    · exact shuffleLoop_error hsl

/-- C8 witness: a source that fails on the first shuffle draw aborts the
all-classes run with RngError. -/
theorem shuffle_fisher_yates_witness :
    generatePassword cfgAll rngFail6 = (Except.error GenError.rngError, stFailAll) ∧
    GenError.rngError = GenError.rngError :=
  shuffle_fisher_yates.2.2.2 cfgAll rngFail6 stBuildAllF stFailAll buildAll
    GenError.rngError rfl rfl rfl

/-- C9: the shuffle step only permutes — the returned password has
exactly the same multiset of characters as the accumulator built before
the shuffle. -/
theorem generatePassword_shuffle_perm {config : PasswordConfig}
    {s s5 t : RngSt} {p5 p : List Char}
    (hv : validateConfig config = none)
    (hb : buildPhase config s = (Except.ok p5, s5))
    (h : generatePassword config s = (Except.ok p, t)) :
    List.Perm p p5 := by
  unfold generatePassword at h
  simp only [hv, hb] at h
  obtain ⟨hL, _⟩ := validateConfig_none hv
  obtain ⟨hlen5, _⟩ := buildPhase_ok hb
  have hk4 := numEnabled_le_four config
  have hL6 : (6 : Int) ≤ config.Length := hL
  have hpos : p5.length - 1 < p5.length := by omega
  exact (shuffleLoop_ok hpos h).1

/-- C9 witness: the concrete all-classes run. -/
theorem generatePassword_shuffle_perm_witness :
    List.Perm pwAll buildAll :=
  @generatePassword_shuffle_perm cfgAll rngZero stBuildAll stAll buildAll pwAll
    rfl rfl rfl

/-- C10: a successful run draws from the random source exactly
2·Length − 1 times. -/
theorem generatePassword_draw_count {config : PasswordConfig} {s t : RngSt}
    {p : List Char} (h : generatePassword config s = (Except.ok p, t)) :
    t.trace.length = s.trace.length + (2 * config.Length.toNat - 1) := by
  obtain ⟨hv, hL, hlen, _, _, _, _, _, _, htr⟩ := generatePassword_ok_spec h
  have hk4 := numEnabled_le_four config
  have hL6 : (6 : Int) ≤ config.Length := hL
  rw [htr]
  simp only [List.length_append, inclBounds_length, List.length_replicate,
    shuffleBounds_length]
  omega

/-- C10 witness: the all-classes length-6 run makes 11 draws. -/
theorem generatePassword_draw_count_witness :
    stAll.trace.length = rngZero.trace.length + (2 * cfgAll.Length.toNat - 1) :=
  @generatePassword_draw_count cfgAll rngZero stAll pwAll rfl

end PassInator
